import Mathlib

/-!
Shallow embedding of the storage layer of SparkPost/httpdump.

The repository stores inbound HTTP requests as rows of a relational table
(`raw_requests`), claims batches of pending rows with a watermark protocol,
reads a claimed batch back ordered by arrival time, and finalizes a batch
either by deleting its rows (PgDumper.BatchDone and the part_003
SQLiteDumper.BatchDone) or by tagging them with the sentinel -1 (the
part_005 SQLiteDumper.BatchDone).

Machine model: a storage target is a list of rows plus the next
auto-increment id (`bigserial` / `integer primary key autoincrement`).
SQL text values are Lean `String`; timestamps and ids are `Int`.
-/

namespace Httpdump

/-- One row of the `raw_requests` table: `id` (bigserial / autoincrement
primary key), `head`, `data`, arrival timestamp (`"when"` in Pg, `date` in
SQLite) and the nullable batch tag (`batch_id` / `batch`). `none` models SQL
NULL. -/
structure Row where
  id : Int
  head : String
  data : String
  date : Int
  batch : Option Int
deriving Repr, DecidableEq

/-- A storage target: the stored rows (in insertion order) and the next id
the engine will assign.  Both engines (Pg bigserial, SQLite AUTOINCREMENT)
hand out strictly increasing ids and never reuse one after a DELETE. -/
structure Store where
  rows : List Row
  nextId : Int
deriving Repr, DecidableEq

/-- A freshly created storage target: no rows, ids start at 1. -/
def emptyStore : Store := ⟨[], 1⟩

/-- The pending test of the claim SQL: `batch == 0 OR batch IS NULL`
(`batch_id = 0 OR batch_id IS NULL` in the Pg variant). -/
def unsetTag : Option Int → Bool
  | none => true
  | some v => v == 0

/-- The request record handed across the `Dumper` / `Batcher` interfaces
(`storage.Request` / `dumpto.Request` in the source): pointer fields become
`Option`. -/
structure Request where
  id : Option Int
  head : String
  data : String
  date : Int
  batch : Option Int
deriving Repr, DecidableEq

/-- How the scan loop materializes a row: head, data and timestamp are
scanned afresh for each row and `Batch` is left nil, but `req.ID = &tmpID`
stores the address of the single `tmpID` variable shared by the whole
loop; `tmpID` here is the value that variable holds once the loop is done,
which is what any caller dereferencing the ID field observes. -/
def Row.toRequest (tmpID : Option Int) (r : Row) : Request :=
  ⟨tmpID, r.head, r.data, r.date, none⟩

/-- PgDumper.Dump / SQLiteDumper.Dump (INSERT path): insert head, data and
the arrival timestamp; the engine assigns the next id; the batch column is
not in the column list, so it starts NULL. -/
def Dump (st : Store) (head data : String) (date : Int) : Store :=
  ⟨st.rows ++ [⟨st.nextId, head, data, date, none⟩], st.nextId + 1⟩

/-- Rows matched by `WHERE (batch == 0 OR batch IS NULL)`. -/
def pendingRows (st : Store) : List Row :=
  st.rows.filter (fun r => unsetTag r.batch)

/-- SQL `max(id)` over a list of rows: NULL on the empty set. -/
def maxIds : List Row → Option Int
  | [] => none
  | r :: rs =>
    match maxIds rs with
    | none => some r.id
    | some m => some (max r.id m)

/-- The row filter of the claim UPDATE:
`(batch == 0 OR batch IS NULL) AND id <= m`. -/
def claimHits (m : Int) (r : Row) : Bool :=
  unsetTag r.batch && decide (r.id ≤ m)

/-- Effect of the claim UPDATE on one row: `SET batch = m` when the WHERE
clause matches, otherwise leave the row alone. -/
def tagRow (m : Int) (r : Row) : Row :=
  if claimHits m r then { r with batch := some m } else r

/-- PgDumper.MarkBatch / SQLiteDumper.MarkBatch: read
`max(id)` over untagged rows; NULL means no pending row, return 0.
Otherwise run the UPDATE tagging every untagged row with `id <= max`,
then return the max as watermark, or 0 if the UPDATE affected no rows. -/
def MarkBatch (st : Store) : Store × Int :=
  match maxIds (pendingRows st) with
  | none => (st, 0)
  | some m =>
    let st2 : Store := ⟨st.rows.map (tagRow m), st.nextId⟩
    (st2, if (st.rows.filter (claimHits m)).length = 0 then 0 else m)

/-- The rows the fetch SELECT yields, in scan order:
`SELECT id, head, data, date FROM raw_requests WHERE batch == ? ORDER BY
date ASC`. -/
def fetchRows (st : Store) (batchID : Int) : List Row :=
  (st.rows.filter (fun r => r.batch == some batchID)).insertionSort
    (fun a b => a.date ≤ b.date)

/-- PgDumper.ReadRequests / SQLiteDumper.ReadRequests: scan the SELECT in
order, materializing each row.  `var tmpID` is declared once, outside the
`rows.Next()` loop, and every record stores `&tmpID` in its ID field, so
after the loop every returned record reads back the id of the LAST scanned
row. -/
def ReadRequests (st : Store) (batchID : Int) : List Request :=
  (fetchRows st batchID).map
    (Row.toRequest (Option.map Row.id (fetchRows st batchID).getLast?))

/-- PgDumper.BatchDone (also the part_003 SQLiteDumper.BatchDone):
`DELETE FROM raw_requests WHERE batch_id = ?`. -/
def BatchDone (st : Store) (batchID : Int) : Store :=
  ⟨st.rows.filter (fun r => !(r.batch == some batchID)), st.nextId⟩

/-- Effect on one row of the part_005 finalize UPDATE:
`SET batch=-1 WHERE batch = ?`. -/
def sentinelRow (batchID : Int) (r : Row) : Row :=
  if r.batch == some batchID then { r with batch := some (-1) } else r

/-- The part_005 SQLiteDumper.BatchDone:
`UPDATE raw_requests SET batch=-1 WHERE batch = ?`. -/
def BatchDoneSentinel (st : Store) (batchID : Int) : Store :=
  ⟨st.rows.map (sentinelRow batchID), st.nextId⟩

/-- All ids at least 1: true of every store built by the engines (bigserial
and AUTOINCREMENT start at 1). -/
def IdsPos (st : Store) : Prop := ∀ r ∈ st.rows, 1 ≤ r.id

/-- The calls ProcessBatch makes on its collaborators, in order. -/
inductive BCall where
  | mark
  | read
  | process
  | done
deriving Repr, DecidableEq

/-- The dumpto.Batcher interface: MarkBatch, ReadRequests, BatchDone, each
able to fail with an error. -/
structure Batcher (σ : Type) where
  markBatch : σ → σ × Except String Int
  readRequests : σ → Int → Except String (List Request)
  batchDone : σ → Int → σ × Except String Unit

/-- dumpto.ProcessBatch (the variant taking a Processor): claim a batch,
stop on error or on the 0 sentinel; read the batch, stop on error or on an
empty batch (success, 0); run the processor, stop on its error; finally
BatchDone.  Returns the final state, the (count, error) result — `.error e`
models `(0, err)` and `.ok n` models `(n, nil)` — and the trace of
collaborator calls made. -/
def ProcessBatch {σ : Type} (b : Batcher σ) (p : List Request → Except String Unit)
    (st : σ) : σ × Except String Nat × List BCall :=
  match (b.markBatch st).2 with
  | .error e => ((b.markBatch st).1, .error e, [.mark])
  | .ok batchID =>
    if batchID = 0 then ((b.markBatch st).1, .ok 0, [.mark])
    else
      match b.readRequests (b.markBatch st).1 batchID with
      | .error e => ((b.markBatch st).1, .error e, [.mark, .read])
      | .ok reqs =>
        if reqs.length = 0 then ((b.markBatch st).1, .ok 0, [.mark, .read])
        else
          match p reqs with
          | .error e => ((b.markBatch st).1, .error e, [.mark, .read, .process])
          | .ok _ =>
            match (b.batchDone (b.markBatch st).1 batchID).2 with
            | .error e =>
              ((b.batchDone (b.markBatch st).1 batchID).1, .error e,
               [.mark, .read, .process, .done])
            | .ok _ =>
              ((b.batchDone (b.markBatch st).1 batchID).1, .ok reqs.length,
               [.mark, .read, .process, .done])

/-- The concrete store as a Batcher, with the deleting finalize
(PgDumper / part_003 SQLiteDumper).  The modelled storage operations
themselves never fail. -/
def batcherDelete : Batcher Store :=
  ⟨fun st => ((MarkBatch st).1, .ok (MarkBatch st).2),
   fun st w => .ok (ReadRequests st w),
   fun st w => (BatchDone st w, .ok ())⟩

/-- The concrete store as a Batcher, with the sentinel finalize
(part_005 SQLiteDumper). -/
def batcherSentinel : Batcher Store :=
  ⟨fun st => ((MarkBatch st).1, .ok (MarkBatch st).2),
   fun st w => .ok (ReadRequests st w),
   fun st w => (BatchDoneSentinel st w, .ok ())⟩

/-- One event of a write/claim history: a Dump of a request, or a
MarkBatch claim. -/
inductive Ev where
  | write (head data : String) (date : Int)
  | claim
deriving Repr, DecidableEq

/-- Execute one event; a claim also yields the watermark it returned. -/
def stepEv (st : Store) : Ev → Store × Option Int
  | .write h d t => (Dump st h d t, none)
  | .claim => ((MarkBatch st).1, some (MarkBatch st).2)

/-- Run a history of writes and claims, collecting the nonzero watermarks
the claims returned (0 is the "none" sentinel, not a batch). -/
def runEvs : Store → List Ev → Store × List Int
  | st, [] => (st, [])
  | st, e :: es =>
    let s := stepEv st e
    let rest := runEvs s.1 es
    match s.2 with
    | some w => if w = 0 then rest else (rest.1, w :: rest.2)
    | none => rest

/-- Number of writes in a history. -/
def countWrites : List Ev → Nat
  | [] => 0
  | .write _ _ _ :: es => countWrites es + 1
  | .claim :: es => countWrites es

/-- The ids a store hands out to k consecutive inserts starting at s. -/
def idsFrom (s : Int) : Nat → List Int
  | 0 => []
  | k + 1 => s :: idsFrom (s + 1) k

/-- One attempt of a storage call against the embedded engine: success, a
sqlite3.Error carrying an error code, or an error that is not a
sqlite3.Error at all. -/
inductive Attempt (α : Type) where
  | ok (a : α)
  | engineErr (code : Int)
  | otherErr
deriving Repr, DecidableEq

/-- Outcome of the retry loop: success after some retries, an error
surfaced after some retries, or never returning (every attempt hit a
retryable code). -/
inductive RetryResult (α : Type) where
  | done (a : α) (retries : Nat)
  | fatal (retries : Nat)
  | hung
deriving Repr, DecidableEq

/-- sqlite3 ExecRetry over a sequence of attempt outcomes: on an engine
error whose code is in `codes`, sleep and loop; on any other error return
it immediately; on success return the result. -/
def ExecRetry {α : Type} (codes : Int → Bool) : List (Attempt α) → RetryResult α
  | [] => .hung
  | .ok a :: _ => .done a 0
  | .engineErr c :: rest =>
    if codes c then
      match ExecRetry codes rest with
      | .done a n => .done a (n + 1)
      | .fatal n => .fatal (n + 1)
      | .hung => .hung
    else .fatal 0
  | .otherErr :: _ => .fatal 0

/-- sqlite3 QueryRetry: the same loop as ExecRetry, duplicated in the
source for Query instead of Exec. -/
def QueryRetry {α : Type} (codes : Int → Bool) : List (Attempt α) → RetryResult α
  | [] => .hung
  | .ok a :: _ => .done a 0
  | .engineErr c :: rest =>
    if codes c then
      match QueryRetry codes rest with
      | .done a n => .done a (n + 1)
      | .fatal n => .fatal (n + 1)
      | .hung => .hung
    else .fatal 0
  | .otherErr :: _ => .fatal 0

/-- The one retryable code: `SQLITE_LOCKED = 6` (sqlite3 rescode list). -/
def SQLITE_LOCKED : Int := 6

/-- The codes map every call site passes: `map[int]bool{SQLITE_LOCKED: true}`. -/
def lockedCodes : Int → Bool := fun c => c == SQLITE_LOCKED

/-- The fixed delay every call site passes: `10 * time.Millisecond`. -/
def retryAfterMs : Nat := 10

/-- Total time slept by the loop: one fixed delay per retry. -/
def RetryResult.sleepMs {α : Type} (after : Nat) : RetryResult α → Nat
  | .done _ n => n * after
  | .fatal n => n * after
  | .hung => 0

/-- Go time layout strings for each rotation granularity (the DateFormats
map); a missing key yields the empty string, as a Go map does. -/
def DateFormats : String → String := fun g =>
  if g = "day" then "2006-01-02T-MST"
  else if g = "hour" then "2006-01-02T15-MST"
  else if g = "minute" then "2006-01-02T15-04-MST"
  else ""

/-- State of the part_003 SQLiteDumper: configuration, the current bucket
label, the live handle (the db file name it was opened on), the db files
existing on disk, and a log of which db file each INSERT went to. -/
structure SQLiteDumper where
  dbPath : String
  inMemory : Bool
  dateFormat : String
  curDate : String
  dbh : Option String
  files : List String
  writes : List (String × String × String)
deriving Repr, DecidableEq

/-- part_003 reopenDBFile: for the in-memory store, a no-op once the handle
exists, first-call initialization otherwise; for the file store, open the
named file (creating it and its schema when absent) and make it the live
handle. -/
def reopenDBFile (ctx : SQLiteDumper) (dbfile : String) : SQLiteDumper :=
  if ctx.inMemory then
    if ctx.dbh = none then { ctx with dbh := some dbfile } else ctx
  else
    { ctx with
      dbh := some dbfile
      files := if dbfile ∈ ctx.files then ctx.files else ctx.files ++ [dbfile] }

/-- part_003 updateCurDate: in-memory mode opens the handle once and then
does nothing; file mode formats "now" with the configured granularity and,
when the label changed, stores the new label, closes the live handle and
reopens the file for the new label.  `fmtT` abstracts Go time.Format
(layout and instant to label). -/
def updateCurDate (fmtT : String → Int → String) (ctx : SQLiteDumper)
    (now : Int) : SQLiteDumper :=
  if ctx.inMemory then
    if ctx.dbh = none then reopenDBFile ctx ctx.dateFormat else ctx
  else
    let nowstr := fmtT (DateFormats ctx.dateFormat) now
    if ctx.curDate ≠ nowstr then
      reopenDBFile { ctx with curDate := nowstr } (nowstr ++ ".db")
    else ctx

/-- part_003 SQLiteDumper.Dump: takes the handle read-lock and INSERTs into
whatever db file the live handle points at.  It does not consult the clock
or the bucket label.  `none` models the nil-handle crash. -/
def SQLiteDump (ctx : SQLiteDumper) (head data : String) :
    Option SQLiteDumper :=
  match ctx.dbh with
  | some f => some { ctx with writes := ctx.writes ++ [(f, head, data)] }
  | none => none

/-- part_003 NewDumper: "memory" selects the in-memory store with the
fixed shared-cache DSN as its label; otherwise the granularity must be
day, hour or minute; then updateCurDate runs once to open the initial
handle. -/
def NewDumper (fmtT : String → Int → String) (dateFmt dbPath : String)
    (now : Int) : Except String SQLiteDumper :=
  if dateFmt = "memory" then
    .ok (updateCurDate fmtT
      ⟨dbPath, true, "file:foo.db?cache=shared&mode=memory", "", none, [], []⟩ now)
  else if dateFmt = "day" ∨ dateFmt = "hour" ∨ dateFmt = "minute" then
    .ok (updateCurDate fmtT ⟨dbPath, false, dateFmt, "", none, [], []⟩ now)
  else
    .error "datefmt must be one of day, hour, minute"

/-- State of the part_004 SQLiteDumper (no in-memory mode). -/
structure SQLiteDumper4 where
  dateFormat : String
  curDate : String
  dbh : Option String
  files : List String
  writes : List (String × String × String)
deriving Repr, DecidableEq

/-- part_004 reopenDBFile: open the named db file, creating it and its
schema when absent, and make it the live handle. -/
def reopenDBFile4 (ctx : SQLiteDumper4) (dbfile : String) : SQLiteDumper4 :=
  { ctx with
    dbh := some dbfile
    files := if dbfile ∈ ctx.files then ctx.files else ctx.files ++ [dbfile] }

/-- part_004 updateCurDate: format "now" at the configured granularity;
when the label changed, store it, close the live handle and reopen the file
for the new label, all under the exclusive handle lock. -/
def updateCurDate4 (fmtT : String → Int → String) (ctx : SQLiteDumper4)
    (now : Int) : SQLiteDumper4 :=
  let nowstr := fmtT (DateFormats ctx.dateFormat) now
  if ctx.curDate ≠ nowstr then
    reopenDBFile4 { ctx with curDate := nowstr } (nowstr ++ ".db")
  else ctx

/-- part_004 SQLiteDumper.DumpRequest: first updateCurDate for the write
instant, then INSERT into the (possibly fresh) live handle. -/
def DumpRequest (fmtT : String → Int → String) (ctx : SQLiteDumper4)
    (head data : String) (now : Int) : Option SQLiteDumper4 :=
  let c2 := updateCurDate4 fmtT ctx now
  match c2.dbh with
  | some f => some { c2 with writes := c2.writes ++ [(f, head, data)] }
  | none => none

/-- Rows that do not carry the -1 finalize sentinel. -/
def notSentinel (r : Row) : Bool := !(r.batch == some (-1))

/-- Simulation relation between a store run with the deleting finalize and
one run with the sentinel finalize: they agree once the sentinel rows are
dropped, and hand out the same ids. -/
def SimRel (st1 st2 : Store) : Prop :=
  st1.rows = st2.rows.filter notSentinel ∧ st1.nextId = st2.nextId

/-- Basic store invariant maintained by every history: ids and the next id
are positive. -/
def StInv (st : Store) : Prop := IdsPos st ∧ 1 ≤ st.nextId

/-- Every set tag was handed out by some claim of the history that returned
it as a (necessarily positive) watermark. -/
def TagsOk (st : Store) (ws : List Int) : Prop :=
  ∀ r ∈ st.rows, r.batch = none ∨ ∃ w ∈ ws, r.batch = some w ∧ 1 ≤ w

section MaxIdsLemmas

theorem maxIds_eq_none_iff (l : List Row) : maxIds l = none ↔ l = [] := by
  cases l with
  | nil => simp [maxIds]
  | cons r rs =>
    simp only [maxIds]
    cases h : maxIds rs <;> simp

theorem maxIds_le (l : List Row) (m : Int) (hm : maxIds l = some m) :
    ∀ r ∈ l, r.id ≤ m := by
  induction l generalizing m with
  | nil => simp [maxIds] at hm
  | cons r rs ih =>
    intro s hs
    simp only [maxIds] at hm
    cases h : maxIds rs with
    | none =>
      rw [h] at hm
      have hrs : rs = [] := (maxIds_eq_none_iff rs).1 h
      subst hrs
      simp at hs
      subst hs
      exact le_of_eq (Option.some.inj hm)
    | some m2 =>
      rw [h] at hm
      have hm2 : m = max r.id m2 := by simpa using hm.symm
      rcases List.mem_cons.1 hs with hse | hsm
      · subst hse; exact hm2 ▸ le_max_left _ _
      · exact le_trans (ih m2 h s hsm) (hm2 ▸ le_max_right _ _)

theorem maxIds_attained (l : List Row) (m : Int) (hm : maxIds l = some m) :
    ∃ r ∈ l, r.id = m := by
  induction l generalizing m with
  | nil => simp [maxIds] at hm
  | cons r rs ih =>
    simp only [maxIds] at hm
    cases h : maxIds rs with
    | none =>
      rw [h] at hm
      exact ⟨r, List.mem_cons_self r rs, by simpa using hm⟩
    | some m2 =>
      rw [h] at hm
      have hm2 : max r.id m2 = m := by simpa using hm
      rcases max_cases r.id m2 with ⟨he, _⟩ | ⟨he, _⟩
      · exact ⟨r, List.mem_cons_self r rs, by rw [← hm2, he]⟩
      · obtain ⟨s, hs, hse⟩ := ih m2 h
        exact ⟨s, List.mem_cons_of_mem r hs, by rw [← hm2, he, hse]⟩

end MaxIdsLemmas

section MarkBatchLemmas

/-- A claim on a target with no pending row returns the 0 sentinel and runs
no UPDATE. -/
theorem markBatch_of_no_pending (st : Store) (h : pendingRows st = []) :
    MarkBatch st = (st, 0) := by
  unfold MarkBatch
  rw [h]
  rfl

theorem tagRow_id (m : Int) (r : Row) : (tagRow m r).id = r.id := by
  unfold tagRow
  split <;> rfl

/-- The claim UPDATE keeps the id column of every row. -/
theorem markBatch_ids (st : Store) :
    (MarkBatch st).1.rows.map Row.id = st.rows.map Row.id ∧
    (MarkBatch st).1.nextId = st.nextId := by
  unfold MarkBatch
  cases h : maxIds (pendingRows st) with
  | none => exact ⟨rfl, rfl⟩
  | some m =>
    refine ⟨?_, rfl⟩
    simp only [List.map_map]
    exact List.map_congr_left (fun r _ => tagRow_id m r)

/-- A row whose tag is already set is untouched by the claim UPDATE: the
WHERE clause only matches unset tags. -/
theorem markBatch_keeps_tagged (st : Store) (r : Row) (hr : r ∈ st.rows)
    (ht : unsetTag r.batch = false) : r ∈ (MarkBatch st).1.rows := by
  unfold MarkBatch
  cases h : maxIds (pendingRows st) with
  | none => exact hr
  | some m =>
    have : tagRow m r = r := by
      unfold tagRow claimHits
      rw [ht]
      simp
    exact List.mem_map.2 ⟨r, hr, this⟩

/-- When a pending row exists, the claim UPDATE matches at least one row
(the row attaining the max id). -/
theorem markBatch_affected_pos (st : Store) (m : Int)
    (hm : maxIds (pendingRows st) = some m) :
    (st.rows.filter (claimHits m)).length ≠ 0 := by
  obtain ⟨r, hr, hid⟩ := maxIds_attained _ _ hm
  have hmem : r ∈ st.rows := (List.mem_filter.1 hr).1
  have hpend : unsetTag r.batch = true := (List.mem_filter.1 hr).2
  have hhits : claimHits m r = true := by
    unfold claimHits
    rw [hpend, hid]
    simp
  intro hlen
  have : r ∈ List.filter (claimHits m) st.rows := List.mem_filter.2 ⟨hmem, hhits⟩
  rw [List.length_eq_zero.1 hlen] at this
  exact (List.not_mem_nil r) this

/-- When a pending row exists the watermark returned is exactly the max
pending id, never the 0 sentinel of the zero-rows-affected branch. -/
theorem markBatch_snd (st : Store) (m : Int)
    (hm : maxIds (pendingRows st) = some m) : (MarkBatch st).2 = m := by
  unfold MarkBatch
  rw [hm]
  simp [markBatch_affected_pos st m hm]

theorem markBatch_fst_rows (st : Store) (m : Int)
    (hm : maxIds (pendingRows st) = some m) :
    (MarkBatch st).1.rows = st.rows.map (tagRow m) := by
  unfold MarkBatch
  rw [hm]

/-- After a claim on a store with positive ids, no pending row remains:
every untagged row had `id <= max` and was therefore tagged, and the tag
value (being a real id) is nonzero, hence not "unset". -/
theorem pending_after_markBatch (st : Store) (hpos : IdsPos st) :
    pendingRows (MarkBatch st).1 = [] := by
  cases h : maxIds (pendingRows st) with
  | none =>
    rw [markBatch_of_no_pending st ((maxIds_eq_none_iff _).1 h)]
    exact (maxIds_eq_none_iff _).1 h
  | some m =>
    have hm1 : 1 ≤ m := by
      obtain ⟨r, hr, hid⟩ := maxIds_attained _ _ h
      exact hid ▸ hpos r (List.mem_filter.1 hr).1
    rw [pendingRows, markBatch_fst_rows st m h, List.filter_map]
    rw [List.filter_eq_nil_iff.2 ?_]
    · rfl
    intro r hr
    simp only [Function.comp]
    cases hu : unsetTag r.batch with
    | false =>
      have : tagRow m r = r := by
        unfold tagRow claimHits
        rw [hu]
        simp
      rw [this, hu]
      simp
    | true =>
      have hle : r.id ≤ m := maxIds_le _ _ h r (List.mem_filter.2 ⟨hr, hu⟩)
      have : tagRow m r = { r with batch := some m } := by
        unfold tagRow claimHits
        rw [hu]
        simp [hle]
      rw [this]
      have : unsetTag (some m) = false := by
        unfold unsetTag
        simp
        omega
      simp [this]

end MarkBatchLemmas

/-- C1: MarkBatch implements the watermark protocol exactly.  With no
pending row it returns the 0 sentinel and leaves the store untouched.
Otherwise the SELECT reads the max id over untagged rows (an upper bound
attained by some pending row); the single UPDATE sets the tag to that max
for exactly the untagged rows with `id <= max` and leaves every other row
alone; the UPDATE affects at least one row, and the max is returned as the
watermark (the code would return 0 had the UPDATE affected zero rows). -/
theorem claim1_markBatch_watermark_protocol (st : Store) :
    (pendingRows st = [] → MarkBatch st = (st, 0)) ∧
    (∀ m, maxIds (pendingRows st) = some m →
      ((∀ r ∈ pendingRows st, r.id ≤ m) ∧ (∃ r ∈ pendingRows st, r.id = m)) ∧
      (MarkBatch st).1.rows = st.rows.map (tagRow m) ∧
      (MarkBatch st).1.nextId = st.nextId ∧
      (∀ r ∈ st.rows,
        (unsetTag r.batch = true ∧ r.id ≤ m →
          { r with batch := some m } ∈ (MarkBatch st).1.rows) ∧
        (¬(unsetTag r.batch = true ∧ r.id ≤ m) → r ∈ (MarkBatch st).1.rows)) ∧
      (st.rows.filter (claimHits m)).length ≠ 0 ∧
      (MarkBatch st).2 = m) := by
  constructor
  · exact markBatch_of_no_pending st
  intro m hm
  refine ⟨⟨maxIds_le _ _ hm, maxIds_attained _ _ hm⟩,
    markBatch_fst_rows st m hm, (markBatch_ids st).2, ?_,
    markBatch_affected_pos st m hm, markBatch_snd st m hm⟩
  intro r hr
  rw [markBatch_fst_rows st m hm]
  constructor
  · intro ⟨hu, hle⟩
    refine List.mem_map.2 ⟨r, hr, ?_⟩
    unfold tagRow claimHits
    rw [hu]
    simp [hle]
  · intro hno
    refine List.mem_map.2 ⟨r, hr, ?_⟩
    unfold tagRow claimHits
    rcases Classical.em (unsetTag r.batch = true) with hu | hu
    · have hle : ¬ r.id ≤ m := fun hle => hno ⟨hu, hle⟩
      rw [hu]
      simp [hle]
    · rw [Bool.not_eq_true] at hu
      rw [hu]
      simp

/-- Witness for C1 at a concrete store: one pending row (id 1) and one row
already tagged 9; the claim returns watermark 1. -/
theorem claim1_witness :
    (MarkBatch ⟨[⟨1, "a", "b", 0, none⟩, ⟨2, "c", "d", 1, some 9⟩], 3⟩).2 = 1 :=
  (((claim1_markBatch_watermark_protocol
    ⟨[⟨1, "a", "b", 0, none⟩, ⟨2, "c", "d", 1, some 9⟩], 3⟩).2 1
      (by decide)).2.2.2.2).2

theorem sentinelRow_idem (w : Int) (r : Row) :
    sentinelRow w (sentinelRow w r) = sentinelRow w r := by
  unfold sentinelRow
  by_cases h : r.batch = some w
  · simp only [h, beq_self_eq_true, if_true]
    by_cases hw : (some (-1) : Option Int) = some w
    · simp [hw]
    · simp [beq_eq_false_iff_ne.2 hw]
  · simp [beq_eq_false_iff_ne.2 h]

/-- C4: both finalize variants are idempotent.  Running the deleting
BatchDone (Pg / part_003 SQLite) twice with the same watermark equals
running it once, as does the sentinel BatchDone (part_005 SQLite), and
both report success rather than an error. -/
theorem claim4_batchDone_idempotent (st : Store) (w : Int) :
    BatchDone (BatchDone st w) w = BatchDone st w ∧
    BatchDoneSentinel (BatchDoneSentinel st w) w = BatchDoneSentinel st w ∧
    (batcherDelete.batchDone st w).2 = .ok () ∧
    (batcherSentinel.batchDone st w).2 = .ok () := by
  refine ⟨?_, ?_, rfl, rfl⟩
  · unfold BatchDone
    simp [List.filter_filter]
  · unfold BatchDoneSentinel
    simp only [List.map_map, Store.mk.injEq, and_true]
    exact List.map_congr_left (fun r _ => sentinelRow_idem w r)

section ReadRequestsLemmas

theorem fetchRows_perm (st : Store) (w : Int) :
    (fetchRows st w).Perm (st.rows.filter (fun r => r.batch == some w)) :=
  List.perm_insertionSort _ _

theorem readRequests_eq_nil_iff (st : Store) (w : Int) :
    ReadRequests st w = [] ↔ st.rows.filter (fun r => r.batch == some w) = [] := by
  unfold ReadRequests
  rw [List.map_eq_nil_iff]
  constructor
  · intro h
    exact List.perm_nil.1 (h ▸ (fetchRows_perm st w).symm)
  · intro h
    unfold fetchRows
    rw [h]
    rfl

end ReadRequestsLemmas

/-- C7, settled against the source scan loop: the SELECT, its ordering and
the empty case are as claimed, but `var tmpID` is declared once outside the
loop and every `req.ID = &tmpID` stores the same address, so once the loop
finishes every returned record reads back the id of the last scanned row.
At a two-row batch (stored ids 1 and 2, both tagged 2, arriving at 10 and
20): the right rows come back in arrival order, each with its own head,
data and timestamp, but both ID fields read 2 — the first record does not
carry its stored id 1.  An empty match still yields the empty sequence. -/
theorem claim7_readRequests_aliased_ids :
    ReadRequests ⟨[⟨1, "h1", "d1", 10, some 2⟩, ⟨2, "h2", "d2", 20, some 2⟩], 3⟩ 2 =
      [⟨some 2, "h1", "d1", 10, none⟩, ⟨some 2, "h2", "d2", 20, none⟩] ∧
    (ReadRequests ⟨[⟨1, "h1", "d1", 10, some 2⟩, ⟨2, "h2", "d2", 20, some 2⟩], 3⟩ 2).map
      Request.id = [some 2, some 2] ∧
    (ReadRequests ⟨[⟨1, "h1", "d1", 10, some 2⟩, ⟨2, "h2", "d2", 20, some 2⟩], 3⟩ 2).map
      Request.id ≠ [some 1, some 2] ∧
    ReadRequests ⟨[], 1⟩ 7 = [] := by
  refine ⟨?_, ?_, ?_, ?_⟩ <;> decide

/-- When a claim on the concrete store returns a nonzero watermark, reading
that watermark back immediately is nonempty (the max-attaining row was
tagged). -/
theorem markBatch_read_nonempty (st : Store) (h : (MarkBatch st).2 ≠ 0) :
    ReadRequests (MarkBatch st).1 (MarkBatch st).2 ≠ [] := by
  cases hm : maxIds (pendingRows st) with
  | none =>
    exfalso
    apply h
    rw [markBatch_of_no_pending st ((maxIds_eq_none_iff _).1 hm)]
  | some m =>
    have hsnd : (MarkBatch st).2 = m := markBatch_snd st m hm
    obtain ⟨r, hr, hid⟩ := maxIds_attained _ _ hm
    have hmem : r ∈ st.rows := (List.mem_filter.1 hr).1
    have hpend : unsetTag r.batch = true := (List.mem_filter.1 hr).2
    have htag : tagRow m r = { r with batch := some m } := by
      unfold tagRow claimHits
      rw [hpend, hid]
      simp
    have hmem2 : ({ r with batch := some m } : Row) ∈ (MarkBatch st).1.rows := by
      rw [markBatch_fst_rows st m hm]
      exact List.mem_map.2 ⟨r, hmem, htag⟩
    rw [hsnd]
    intro hnil
    have hs : (MarkBatch st).1.rows.filter (fun x => x.batch == some m) = [] :=
      (readRequests_eq_nil_iff (MarkBatch st).1 m).1 hnil
    have : ({ r with batch := some m } : Row) ∈
        (MarkBatch st).1.rows.filter (fun x => x.batch == some m) :=
      List.mem_filter.2 ⟨hmem2, by simp⟩
    rw [hs] at this
    exact (List.not_mem_nil _) this

/-- C3: when the Processor fails, BatchDone is not called.  Generically,
the done call appears in the trace only after MarkBatch returned a nonzero
watermark, ReadRequests returned a non-empty batch and ProcessRequests
returned nil.  On the concrete store a failing processor makes ProcessBatch
return the error with trace mark-read-process, leaving the store exactly as
the claim left it (tags intact), and a subsequent MarkBatch never retags a
tagged row. -/
theorem claim3_processor_failure_not_finalized :
    (∀ (σ : Type) (b : Batcher σ) (p : List Request → Except String Unit) (st : σ),
      BCall.done ∈ (ProcessBatch b p st).2.2 →
      ∃ w reqs, (b.markBatch st).2 = .ok w ∧ w ≠ 0 ∧
        b.readRequests (b.markBatch st).1 w = .ok reqs ∧ reqs ≠ [] ∧
        p reqs = .ok ()) ∧
    (∀ (st : Store) (p : List Request → Except String Unit) (e : String),
      (MarkBatch st).2 ≠ 0 →
      p (ReadRequests (MarkBatch st).1 (MarkBatch st).2) = .error e →
      ProcessBatch batcherDelete p st =
        ((MarkBatch st).1, .error e, [.mark, .read, .process]) ∧
      (∀ r ∈ (MarkBatch st).1.rows, unsetTag r.batch = false →
        r ∈ (MarkBatch (MarkBatch st).1).1.rows)) := by
  constructor
  · intro σ b p st hdone
    unfold ProcessBatch at hdone
    split at hdone
    · simp at hdone
    next batchID heq =>
      split at hdone
      · simp at hdone
      next hBne =>
        split at hdone
        · simp at hdone
        next reqs heq2 =>
          split at hdone
          · simp at hdone
          next hLne =>
            split at hdone
            · simp at hdone
            next u heqp =>
              refine ⟨batchID, reqs, heq, hBne, heq2, ?_, ?_⟩
              · intro hn
                apply hLne
                rw [hn]
                rfl
              · cases u
                exact heqp
  · intro st p e hw hp
    constructor
    · have hne : ReadRequests (MarkBatch st).1 (MarkBatch st).2 ≠ [] :=
        markBatch_read_nonempty st hw
      have hlen : (ReadRequests (MarkBatch st).1 (MarkBatch st).2).length ≠ 0 :=
        fun h0 => hne (List.length_eq_zero.1 h0)
      unfold ProcessBatch batcherDelete
      dsimp only
      rw [if_neg hw, if_neg hlen, hp]
    · intro r hr ht
      exact markBatch_keeps_tagged (MarkBatch st).1 r hr ht

/-- Witness for C3: one pending row, a processor that always fails; the
batch stays tagged and the error is surfaced with no finalize call. -/
theorem claim3_witness :
    ProcessBatch batcherDelete (fun _ => .error "boom") ⟨[⟨1, "h", "d", 5, none⟩], 2⟩ =
      ((MarkBatch ⟨[⟨1, "h", "d", 5, none⟩], 2⟩).1, .error "boom",
       [.mark, .read, .process]) :=
  ((claim3_processor_failure_not_finalized.2 ⟨[⟨1, "h", "d", 5, none⟩], 2⟩
    (fun _ => .error "boom") "boom" (by decide) rfl).1)

/-- C10: if MarkBatch yields a nonzero watermark but ReadRequests comes
back empty, ProcessBatch reports success with count 0, calling neither the
Processor nor BatchDone; and on the concrete store a later MarkBatch never
reclaims a tagged row. -/
theorem claim10_nonzero_mark_empty_read :
    (∀ (σ : Type) (b : Batcher σ) (p : List Request → Except String Unit)
        (st : σ) (w : Int),
      (b.markBatch st).2 = .ok w → w ≠ 0 →
      b.readRequests (b.markBatch st).1 w = .ok [] →
      ProcessBatch b p st = ((b.markBatch st).1, .ok 0, [.mark, .read])) ∧
    (∀ (st : Store) (r : Row), r ∈ st.rows → unsetTag r.batch = false →
      r ∈ (MarkBatch st).1.rows) := by
  constructor
  · intro σ b p st w hmark hw hread
    unfold ProcessBatch
    rw [hmark]
    simp [hw, hread]
  · exact markBatch_keeps_tagged

/-- Witness for C10: a stub batcher whose claim returns 5 and whose read
returns the empty batch. -/
theorem claim10_witness :
    ProcessBatch
      (⟨fun _ => ((), .ok 5), fun _ _ => .ok [], fun _ _ => ((), .ok ())⟩ : Batcher Unit)
      (fun _ => .ok ()) () = ((), .ok 0, [.mark, .read]) :=
  claim10_nonzero_mark_empty_read.1 Unit
    ⟨fun _ => ((), .ok 5), fun _ _ => .ok [], fun _ _ => ((), .ok ())⟩
    (fun _ => .ok ()) () 5 rfl (by decide) rfl

/-- C5: the retry wrapper for the embedded engine.  A call that hits the
SQLITE_LOCKED code n times and then succeeds returns the success after n
retries (for every n — the loop is unbounded), sleeping the fixed
10-millisecond interval once per retry; an engine error with any other
code, or an error that is not an engine error, is returned immediately with
no retry.  Both ExecRetry and QueryRetry behave this way. -/
theorem claim5_locked_retry_policy :
    retryAfterMs = 10 ∧
    (∀ (α : Type) (a : α) (n : Nat) (rest : List (Attempt α)),
      ExecRetry lockedCodes
        (List.replicate n (.engineErr SQLITE_LOCKED) ++ .ok a :: rest) = .done a n ∧
      QueryRetry lockedCodes
        (List.replicate n (.engineErr SQLITE_LOCKED) ++ .ok a :: rest) = .done a n ∧
      RetryResult.sleepMs retryAfterMs (RetryResult.done a n) = n * 10) ∧
    (∀ (α : Type) (c : Int) (rest : List (Attempt α)), c ≠ SQLITE_LOCKED →
      ExecRetry lockedCodes (.engineErr c :: rest) = .fatal 0 ∧
      QueryRetry lockedCodes (.engineErr c :: rest) = .fatal 0) ∧
    (∀ (α : Type) (rest : List (Attempt α)),
      ExecRetry lockedCodes (.otherErr :: rest) = .fatal 0 ∧
      QueryRetry lockedCodes (.otherErr :: rest) = .fatal 0) := by
  refine ⟨rfl, ?_, ?_, ?_⟩
  · intro α a n rest
    refine ⟨?_, ?_, rfl⟩
    · induction n with
      | zero => rfl
      | succ k ih =>
        rw [List.replicate_succ, List.cons_append]
        unfold ExecRetry
        rw [ih]
        rfl
    · induction n with
      | zero => rfl
      | succ k ih =>
        rw [List.replicate_succ, List.cons_append]
        unfold QueryRetry
        rw [ih]
        rfl
  · intro α c rest hc
    have hcf : lockedCodes c = false := by
      unfold lockedCodes
      exact beq_eq_false_iff_ne.2 hc
    constructor
    · unfold ExecRetry
      rw [hcf]
      rfl
    · unfold QueryRetry
      rw [hcf]
      rfl
  · intro α rest
    exact ⟨rfl, rfl⟩

/-- Witness for C5: two locked failures then success, and the immediate
surfacing of a foreign code (SQLITE_BUSY = 5). -/
theorem claim5_witness :
    ExecRetry lockedCodes
      (List.replicate 2 (.engineErr SQLITE_LOCKED) ++ .ok "row" :: []) =
        .done "row" 2 ∧
    ExecRetry lockedCodes ((.engineErr 5 : Attempt String) :: []) = .fatal 0 :=
  ⟨((claim5_locked_retry_policy.2.1 String "row" 2 []).1),
   (claim5_locked_retry_policy.2.2.1 String 5 [] (by decide)).1⟩

/-- C8: in the in-memory mode the handle is created exactly once.  Once a
handle exists, updateCurDate and reopenDBFile return the state unchanged
whatever the clock says; on the very first call updateCurDate opens the
handle on the fixed in-memory DSN; and NewDumper("memory") produces such a
dumper with the handle already open. -/
theorem claim8_inMemory_never_rotates :
    (∀ (fmtT : String → Int → String) (ctx : SQLiteDumper) (now : Int) (f : String),
      ctx.inMemory = true → ctx.dbh ≠ none →
      updateCurDate fmtT ctx now = ctx ∧ reopenDBFile ctx f = ctx) ∧
    (∀ (fmtT : String → Int → String) (ctx : SQLiteDumper) (now : Int),
      ctx.inMemory = true → ctx.dbh = none →
      (updateCurDate fmtT ctx now).dbh = some ctx.dateFormat) ∧
    (∀ (fmtT : String → Int → String) (dbPath : String) (now : Int),
      ∃ ctx, NewDumper fmtT "memory" dbPath now = .ok ctx ∧ ctx.inMemory = true ∧
        ctx.dbh = some "file:foo.db?cache=shared&mode=memory") := by
  refine ⟨?_, ?_, ?_⟩
  · intro fmtT ctx now f hm hd
    constructor
    · unfold updateCurDate
      simp [hm, hd]
    · unfold reopenDBFile
      simp [hm, hd]
  · intro fmtT ctx now hm hd
    unfold updateCurDate reopenDBFile
    simp [hm, hd]
  · intro fmtT dbPath now
    refine ⟨_, rfl, ?_, ?_⟩
    · rfl
    · simp [updateCurDate, reopenDBFile]

/-- Witness for C8: a live in-memory dumper is left untouched by a later
updateCurDate. -/
theorem claim8_witness :
    updateCurDate (fun _ _ => "x")
      ⟨"p", true, "dsn", "", some "dsn", [], []⟩ 99 =
      ⟨"p", true, "dsn", "", some "dsn", [], []⟩ :=
  ((claim8_inMemory_never_rotates.1 (fun _ _ => "x")
    ⟨"p", true, "dsn", "", some "dsn", [], []⟩ 99 "f" rfl (by decide)).1)

/-- C6, against the part_003 variant: Dump does not recompute the bucket
label.  At a state whose label is stale (the clock formats to a different
label), Dump inserts into the old db file and leaves curDate and the
handle unchanged, while updateCurDate — which Dump never invokes — would
have swapped both; the part_004 DumpRequest at the same stale state does
rotate before inserting, as the claim describes. -/
theorem claim6_part003_dump_skips_rotation :
    SQLiteDump
      ⟨".", false, "day", "2015-06-01T-UTC", some "2015-06-01T-UTC.db",
        ["2015-06-01T-UTC.db"], []⟩ "h" "d" =
      some ⟨".", false, "day", "2015-06-01T-UTC", some "2015-06-01T-UTC.db",
        ["2015-06-01T-UTC.db"], [("2015-06-01T-UTC.db", "h", "d")]⟩ ∧
    (fun _ _ => "2015-06-02T-UTC" : String → Int → String)
      (DateFormats "day") 0 ≠ "2015-06-01T-UTC" ∧
    updateCurDate (fun _ _ => "2015-06-02T-UTC")
      ⟨".", false, "day", "2015-06-01T-UTC", some "2015-06-01T-UTC.db",
        ["2015-06-01T-UTC.db"], []⟩ 0 =
      ⟨".", false, "day", "2015-06-02T-UTC", some "2015-06-02T-UTC.db",
        ["2015-06-01T-UTC.db", "2015-06-02T-UTC.db"], []⟩ ∧
    DumpRequest (fun _ _ => "2015-06-02T-UTC")
      ⟨"day", "2015-06-01T-UTC", some "2015-06-01T-UTC.db",
        ["2015-06-01T-UTC.db"], []⟩ "h" "d" 0 =
      some ⟨"day", "2015-06-02T-UTC", some "2015-06-02T-UTC.db",
        ["2015-06-01T-UTC.db", "2015-06-02T-UTC.db"],
        [("2015-06-02T-UTC.db", "h", "d")]⟩ := by
  refine ⟨rfl, by decide, ?_, ?_⟩ <;> decide

section SimulationLemmas

theorem unset_and_notSentinel (r : Row) :
    (unsetTag r.batch && notSentinel r) = unsetTag r.batch := by
  unfold unsetTag notSentinel
  cases hb : r.batch with
  | none => rfl
  | some v =>
    by_cases hv : v = 0
    · subst hv
      rfl
    · simp [beq_eq_false_iff_ne.2 hv]

theorem notSentinel_tagRow (m : Int) (hm : ¬ m = -1) (r : Row) :
    notSentinel (tagRow m r) = notSentinel r := by
  unfold tagRow
  by_cases h : claimHits m r = true
  · rw [if_pos h]
    have hu : unsetTag r.batch = true := by
      unfold claimHits at h
      rw [Bool.and_eq_true] at h
      exact h.1
    have h1 : notSentinel { r with batch := some m } = true := by
      unfold notSentinel
      simp [hm]
    have h2 : notSentinel r = true := by
      have hx := unset_and_notSentinel r
      rw [hu] at hx
      simpa using hx
    rw [h1, h2]
  · rw [if_neg h]

theorem sentinelRow_of_ne (w : Int) (r : Row) (h : ¬ r.batch = some w) :
    sentinelRow w r = r := by
  unfold sentinelRow
  simp [beq_eq_false_iff_ne.2 h]

theorem pendingRows_simRel (st1 st2 : Store) (h : SimRel st1 st2) :
    pendingRows st1 = pendingRows st2 := by
  unfold pendingRows
  rw [h.1, List.filter_filter]
  simp only [unset_and_notSentinel]

theorem simRel_markBatch (st1 st2 : Store) (h : SimRel st1 st2)
    (hpos : IdsPos st2) :
    (MarkBatch st1).2 = (MarkBatch st2).2 ∧
    SimRel (MarkBatch st1).1 (MarkBatch st2).1 := by
  have hpend : pendingRows st1 = pendingRows st2 := pendingRows_simRel st1 st2 h
  cases hm : maxIds (pendingRows st2) with
  | none =>
    have h2 : MarkBatch st2 = (st2, 0) :=
      markBatch_of_no_pending st2 ((maxIds_eq_none_iff _).1 hm)
    have h1 : MarkBatch st1 = (st1, 0) :=
      markBatch_of_no_pending st1 (by rw [hpend]; exact (maxIds_eq_none_iff _).1 hm)
    rw [h1, h2]
    exact ⟨rfl, h⟩
  | some m =>
    have hm1 : maxIds (pendingRows st1) = some m := by rw [hpend]; exact hm
    have hmne : ¬ m = -1 := by
      obtain ⟨r, hr, hid⟩ := maxIds_attained _ _ hm
      have := hpos r (List.mem_filter.1 hr).1
      omega
    refine ⟨?_, ?_, ?_⟩
    · rw [markBatch_snd st1 m hm1, markBatch_snd st2 m hm]
    · rw [markBatch_fst_rows st1 m hm1, markBatch_fst_rows st2 m hm, h.1,
        List.filter_map]
      have : (notSentinel ∘ tagRow m) = notSentinel := by
        funext r
        exact notSentinel_tagRow m hmne r
      rw [this]
    · rw [(markBatch_ids st1).2, (markBatch_ids st2).2]
      exact h.2

theorem eqTag_and_notSentinel (w : Int) (hw : ¬ w = -1) (r : Row) :
    ((r.batch == some w) && notSentinel r) = (r.batch == some w) := by
  by_cases h : r.batch = some w
  · have : notSentinel r = true := by
      unfold notSentinel
      rw [h]
      simp [hw]
    rw [this]
    simp
  · simp [beq_eq_false_iff_ne.2 h]

theorem simRel_fetchRows (st1 st2 : Store) (w : Int) (h : SimRel st1 st2)
    (hw : 1 ≤ w) : fetchRows st1 w = fetchRows st2 w := by
  have hwne : ¬ w = -1 := by omega
  unfold fetchRows
  rw [h.1, List.filter_filter]
  simp only [eqTag_and_notSentinel w hwne]

theorem simRel_readRequests (st1 st2 : Store) (w : Int) (h : SimRel st1 st2)
    (hw : 1 ≤ w) : ReadRequests st1 w = ReadRequests st2 w := by
  unfold ReadRequests
  rw [simRel_fetchRows st1 st2 w h hw]

theorem simRel_dump (st1 st2 : Store) (hd dt : String) (t : Int)
    (h : SimRel st1 st2) : SimRel (Dump st1 hd dt t) (Dump st2 hd dt t) := by
  unfold Dump
  refine ⟨?_, by simp [h.2]⟩
  rw [List.filter_append, h.1, h.2]
  simp [notSentinel]

theorem simRel_batchDone (st1 st2 : Store) (w : Int) (h : SimRel st1 st2) :
    SimRel (BatchDone st1 w) (BatchDoneSentinel st2 w) := by
  unfold BatchDone BatchDoneSentinel
  refine ⟨?_, h.2⟩
  rw [h.1, List.filter_filter, List.filter_map]
  have hpt : ∀ r ∈ st2.rows,
      (notSentinel ∘ sentinelRow w) r = (!(r.batch == some w) && notSentinel r) := by
    intro r _
    by_cases hb : r.batch = some w
    · have h1 : sentinelRow w r = { r with batch := some (-1) } := by
        unfold sentinelRow
        simp [hb]
      have h2 : notSentinel { r with batch := some (-1) } = false := by
        unfold notSentinel
        simp
      simp [Function.comp, h1, h2, hb]
    · simp [Function.comp, sentinelRow_of_ne w r hb, beq_eq_false_iff_ne.2 hb]
  rw [List.filter_congr hpt]
  dsimp only
  symm
  have hid : ∀ r ∈ List.filter (fun x => !(x.batch == some w) && notSentinel x) st2.rows,
      sentinelRow w r = id r := by
    intro r hr
    have hmem := (List.mem_filter.1 hr).2
    apply sentinelRow_of_ne
    intro hb
    rw [hb] at hmem
    simp at hmem
  rw [List.map_congr_left hid, List.map_id]

end SimulationLemmas

/-- C9: the deleting finalize and the sentinel finalize are observationally
equivalent through the Batcher interface.  Starting from the same sentinel
free contents and finalizing the same watermark puts the two stores in the
simulation relation (equal once sentinel rows are dropped, same next id);
related stores have the same pending rows, so every later MarkBatch returns
the same watermark and keeps them related (given positive ids), every later
ReadRequests of a watermark the claim can produce (w >= 1) returns the same
sequence, and writes and further finalizes keep them related — the variants
differ only in whether the finalized rows persist. -/
theorem claim9_finalize_variants_equivalent :
    (∀ (st : Store) (w : Int), (∀ r ∈ st.rows, notSentinel r = true) →
      SimRel (BatchDone st w) (BatchDoneSentinel st w)) ∧
    (∀ st1 st2, SimRel st1 st2 → pendingRows st1 = pendingRows st2) ∧
    (∀ st1 st2, SimRel st1 st2 → IdsPos st2 →
      (MarkBatch st1).2 = (MarkBatch st2).2 ∧
      SimRel (MarkBatch st1).1 (MarkBatch st2).1) ∧
    (∀ st1 st2 (w : Int), SimRel st1 st2 → 1 ≤ w →
      ReadRequests st1 w = ReadRequests st2 w) ∧
    (∀ st1 st2 (hd dt : String) (t : Int), SimRel st1 st2 →
      SimRel (Dump st1 hd dt t) (Dump st2 hd dt t)) ∧
    (∀ st1 st2 (w : Int), SimRel st1 st2 →
      SimRel (BatchDone st1 w) (BatchDoneSentinel st2 w)) := by
  refine ⟨?_, pendingRows_simRel, simRel_markBatch, ?_, ?_, simRel_batchDone⟩
  · intro st w hns
    apply simRel_batchDone
    exact ⟨(List.filter_eq_self.2 hns).symm, rfl⟩
  · intro st1 st2 w h hw
    exact simRel_readRequests st1 st2 w h hw
  · intro st1 st2 hd dt t h
    exact simRel_dump st1 st2 hd dt t h

/-- Witness for C9 at a concrete store: after finalizing watermark 1,
delete and sentinel stores are related. -/
theorem claim9_witness :
    SimRel (BatchDone ⟨[⟨1, "a", "b", 0, some 1⟩], 2⟩ 1)
      (BatchDoneSentinel ⟨[⟨1, "a", "b", 0, some 1⟩], 2⟩ 1) :=
  claim9_finalize_variants_equivalent.1 ⟨[⟨1, "a", "b", 0, some 1⟩], 2⟩ 1
    (by decide)

section HistoryLemmas

theorem runEvs_cons_write (st : Store) (h d : String) (t : Int) (es : List Ev) :
    runEvs st (.write h d t :: es) = runEvs (Dump st h d t) es := rfl

theorem runEvs_cons_claim (st : Store) (es : List Ev) :
    runEvs st (.claim :: es) =
      (if (MarkBatch st).2 = 0 then runEvs (MarkBatch st).1 es
       else ((runEvs (MarkBatch st).1 es).1,
             (MarkBatch st).2 :: (runEvs (MarkBatch st).1 es).2)) := rfl

theorem dump_stInv (st : Store) (h d : String) (t : Int) (hi : StInv st) :
    StInv (Dump st h d t) := by
  obtain ⟨hid, hn⟩ := hi
  constructor
  · intro r hr
    rcases List.mem_append.1 hr with hr | hr
    · exact hid r hr
    · simp at hr
      rw [hr]
      exact hn
  · unfold Dump
    dsimp only
    omega

theorem markBatch_stInv (st : Store) (hi : StInv st) : StInv (MarkBatch st).1 := by
  obtain ⟨hid, hn⟩ := hi
  constructor
  · intro r hr
    have : r.id ∈ (MarkBatch st).1.rows.map Row.id := List.mem_map_of_mem Row.id hr
    rw [(markBatch_ids st).1] at this
    obtain ⟨s, hs, hse⟩ := List.mem_map.1 this
    exact hse ▸ hid s hs
  · rw [(markBatch_ids st).2]
    exact hn

theorem dump_tagsOk (st : Store) (h d : String) (t : Int) (ws : List Int)
    (hT : TagsOk st ws) : TagsOk (Dump st h d t) ws := by
  intro r hr
  rcases List.mem_append.1 hr with hr | hr
  · exact hT r hr
  · simp at hr
    rw [hr]
    exact Or.inl rfl

theorem tagsOk_mono_append (st : Store) (ws l : List Int) (hT : TagsOk st ws) :
    TagsOk st (ws ++ l) := by
  intro r hr
  rcases hT r hr with hb | ⟨w, hw, hwb⟩
  · exact Or.inl hb
  · exact Or.inr ⟨w, List.mem_append_left l hw, hwb⟩

/-- A claim under the store invariant either finds nothing (and leaves the
store alone) or returns a positive watermark. -/
theorem markBatch_zero_of_stInv (st : Store) (hi : StInv st)
    (h0 : (MarkBatch st).2 = 0) : MarkBatch st = (st, 0) := by
  cases hm : maxIds (pendingRows st) with
  | none => exact markBatch_of_no_pending st ((maxIds_eq_none_iff _).1 hm)
  | some m =>
    exfalso
    obtain ⟨r, hr, hid⟩ := maxIds_attained _ _ hm
    have h1 : 1 ≤ m := hid ▸ hi.1 r (List.mem_filter.1 hr).1
    have := markBatch_snd st m hm
    omega

theorem markBatch_tagsOk (st : Store) (acc : List Int) (hi : StInv st)
    (hT : TagsOk st acc) :
    TagsOk (MarkBatch st).1 (acc ++ [(MarkBatch st).2]) := by
  cases hm : maxIds (pendingRows st) with
  | none =>
    rw [markBatch_of_no_pending st ((maxIds_eq_none_iff _).1 hm)]
    exact tagsOk_mono_append st acc _ hT
  | some m =>
    have hm1 : 1 ≤ m := by
      obtain ⟨r, hr, hid⟩ := maxIds_attained _ _ hm
      exact hid ▸ hi.1 r (List.mem_filter.1 hr).1
    have hsnd : (MarkBatch st).2 = m := markBatch_snd st m hm
    intro r hr
    rw [markBatch_fst_rows st m hm] at hr
    obtain ⟨s, hs, hse⟩ := List.mem_map.1 hr
    subst hse
    unfold tagRow
    by_cases hc : claimHits m s = true
    · rw [if_pos hc]
      refine Or.inr ⟨m, ?_, rfl, hm1⟩
      rw [hsnd]
      exact List.mem_append_right acc (List.mem_singleton.2 rfl)
    · rw [if_neg hc]
      rcases hT s hs with hb | ⟨w, hw, hwb⟩
      · exact Or.inl hb
      · exact Or.inr ⟨w, List.mem_append_left _ hw, hwb⟩

theorem runEvs_inv (evs : List Ev) : ∀ (st : Store) (acc : List Int),
    StInv st → TagsOk st acc →
    StInv (runEvs st evs).1 ∧ TagsOk (runEvs st evs).1 (acc ++ (runEvs st evs).2) := by
  induction evs with
  | nil =>
    intro st acc hi hT
    refine ⟨hi, ?_⟩
    show TagsOk st (acc ++ [])
    simpa using hT
  | cons e es ih =>
    intro st acc hi hT
    cases e with
    | write h d t =>
      rw [runEvs_cons_write]
      exact ih (Dump st h d t) acc (dump_stInv st h d t hi) (dump_tagsOk st h d t acc hT)
    | claim =>
      rw [runEvs_cons_claim]
      by_cases h0 : (MarkBatch st).2 = 0
      · rw [if_pos h0]
        have hz := markBatch_zero_of_stInv st hi h0
        rw [hz]
        exact ih st acc hi hT
      · rw [if_neg h0]
        have h1 := ih (MarkBatch st).1 (acc ++ [(MarkBatch st).2])
          (markBatch_stInv st hi) (markBatch_tagsOk st acc hi hT)
        refine ⟨h1.1, ?_⟩
        have heq : (acc ++ [(MarkBatch st).2]) ++ (runEvs (MarkBatch st).1 es).2 =
            acc ++ ((MarkBatch st).2 :: (runEvs (MarkBatch st).1 es).2) := by
          rw [List.append_assoc]
          rfl
        rw [← heq]
        exact h1.2

theorem runEvs_ids (evs : List Ev) : ∀ st : Store,
    (runEvs st evs).1.rows.map Row.id =
      st.rows.map Row.id ++ idsFrom st.nextId (countWrites evs) ∧
    (runEvs st evs).1.nextId = st.nextId + (countWrites evs : Int) := by
  induction evs with
  | nil =>
    intro st
    simp [runEvs, countWrites, idsFrom]
  | cons e es ih =>
    intro st
    cases e with
    | write h d t =>
      rw [runEvs_cons_write]
      obtain ⟨hmap, hnext⟩ := ih (Dump st h d t)
      constructor
      · rw [hmap]
        unfold Dump
        dsimp only
        rw [List.map_append, List.append_assoc]
        show _ = st.rows.map Row.id ++ idsFrom st.nextId (countWrites es + 1)
        rfl
      · rw [hnext]
        rw [show countWrites (Ev.write h d t :: es) = countWrites es + 1 from rfl]
        unfold Dump
        dsimp only
        push_cast
        omega
    | claim =>
      rw [runEvs_cons_claim]
      have hstate : (runEvs st (.claim :: es)).1 = (runEvs (MarkBatch st).1 es).1 := by
        rw [runEvs_cons_claim]
        by_cases h0 : (MarkBatch st).2 = 0
        · rw [if_pos h0]
        · rw [if_neg h0]
      obtain ⟨hmap, hnext⟩ := ih (MarkBatch st).1
      rw [← runEvs_cons_claim, hstate]
      constructor
      · rw [hmap, (markBatch_ids st).1, (markBatch_ids st).2]
        rfl
      · rw [hnext, (markBatch_ids st).2]
        rfl

end HistoryLemmas

/-- C2: the watermark protocol extracts every written record exactly once.
Dump only ever appends rows with the tag unset; a claim never retags a row
whose tag is set (at-most-once); after any history of writes and claims
from an empty store, every set tag is a watermark some claim of the history
returned; draining with one more MarkBatch empties the pending set — the
next MarkBatch returns the 0 sentinel and changes nothing — the drained
store still holds exactly the ids 1..k of all k written records, and every
one of its records carries a watermark returned by some claim of the
history or by the draining claim: no record lost, none claimed twice. -/
theorem claim2_union_of_batches_is_all_writes (evs : List Ev) :
    (∀ (st : Store) (hd dt : String) (t : Int) (r : Row),
      r ∈ (Dump st hd dt t).rows → r ∈ st.rows ∨ r.batch = none) ∧
    (∀ (st : Store), ∀ r ∈ st.rows, unsetTag r.batch = false →
      r ∈ (MarkBatch st).1.rows) ∧
    (∀ r ∈ (runEvs emptyStore evs).1.rows, r.batch = none ∨
      ∃ w ∈ (runEvs emptyStore evs).2, r.batch = some w) ∧
    MarkBatch (MarkBatch (runEvs emptyStore evs).1).1 =
      ((MarkBatch (runEvs emptyStore evs).1).1, 0) ∧
    (MarkBatch (runEvs emptyStore evs).1).1.rows.map Row.id =
      idsFrom 1 (countWrites evs) ∧
    (∀ r ∈ (MarkBatch (runEvs emptyStore evs).1).1.rows,
      ∃ w, r.batch = some w ∧
        (w ∈ (runEvs emptyStore evs).2 ∨
         w = (MarkBatch (runEvs emptyStore evs).1).2)) := by
  have hempty : StInv emptyStore := by
    constructor
    · intro r hr
      simp [emptyStore] at hr
    · norm_num [emptyStore]
  have hemptyT : TagsOk emptyStore [] := by
    intro r hr
    simp [emptyStore] at hr
  obtain ⟨hstinv, htags⟩ := runEvs_inv evs emptyStore [] hempty hemptyT
  have hpend : pendingRows (MarkBatch (runEvs emptyStore evs).1).1 = [] :=
    pending_after_markBatch (runEvs emptyStore evs).1 hstinv.1
  refine ⟨?_, ?_, ?_, ?_, ?_, ?_⟩
  · intro st hd dt t r hr
    rcases List.mem_append.1 hr with hr | hr
    · exact Or.inl hr
    · simp at hr
      rw [hr]
      exact Or.inr rfl
  · exact markBatch_keeps_tagged
  · intro r hr
    rcases htags r hr with hb | ⟨w, hw, hwb, _⟩
    · exact Or.inl hb
    · exact Or.inr ⟨w, by simpa using hw, hwb⟩
  · exact markBatch_of_no_pending _ hpend
  · rw [(markBatch_ids (runEvs emptyStore evs).1).1, (runEvs_ids evs emptyStore).1]
    rfl
  · intro r hr
    have htags2 : TagsOk (MarkBatch (runEvs emptyStore evs).1).1
        (([] ++ (runEvs emptyStore evs).2) ++ [(MarkBatch (runEvs emptyStore evs).1).2]) :=
      markBatch_tagsOk (runEvs emptyStore evs).1 _ hstinv htags
    rcases htags2 r hr with hb | ⟨w, hw, hwb, _⟩
    · exfalso
      have : r ∈ pendingRows (MarkBatch (runEvs emptyStore evs).1).1 :=
        List.mem_filter.2 ⟨hr, by rw [hb]; rfl⟩
      rw [hpend] at this
      exact (List.not_mem_nil r) this
    · refine ⟨w, hwb, ?_⟩
      rcases List.mem_append.1 hw with hw | hw
      · exact Or.inl (by simpa using hw)
      · exact Or.inr (List.mem_singleton.1 hw)

/-- Witness for C2: after one write and the draining claim, the single
record carries a returned watermark. -/
theorem claim2_witness :
    ∃ w, (⟨1, "h", "d", 0, some 1⟩ : Row).batch = some w ∧
      (w ∈ (runEvs emptyStore [Ev.write "h" "d" 0]).2 ∨
       w = (MarkBatch (runEvs emptyStore [Ev.write "h" "d" 0]).1).2) :=
  (claim2_union_of_batches_is_all_writes [Ev.write "h" "d" 0]).2.2.2.2.2
    ⟨1, "h", "d", 0, some 1⟩ (by decide)

end Httpdump
